import Mathlib

/-
Formal model of the RAG core of the MusTax chat application
(section splitting, structured-document building, chunk production,
embedding batching, vector-store fallback, context formatting, and
provider response-shape normalization), together with proofs of the
documented behavioural properties.

The TypeScript sources are translated shallowly:
- strings are Lean `String`s; JavaScript string helpers (`trim`, `split('\n')`,
  `includes`, `toLowerCase`, the regex header patterns) are reimplemented
  character-exactly below, on the character lists of the strings involved;
- ambient effects (the current date, the OpenAI/Pinecone clients, network
  calls) become explicit parameters: a batch-embedding API is a function
  `List String → Option (List E)` (`none` = the call threw), the Pinecone
  index is a `Bool` (reachable or not) together with an optional list of
  matches (`none` = the query threw);
- fallible JavaScript paths return `Option`/`Except`.
-/

set_option maxRecDepth 100000

namespace MusTax

/- JavaScript character and string primitives -/

/-- The character set matched by JavaScript's `\s` regex class and removed by
`String.prototype.trim` (ECMA-262 WhiteSpace plus LineTerminator). -/
def isJsWs (c : Char) : Bool :=
  c = ' ' || c = '\t' || c = '\n' || c = '\r' || c = '\x0b' || c = '\x0c' ||
  c = '\u00A0' || c = '\u1680' || ('\u2000' ≤ c && c ≤ '\u200A') ||
  c = '\u2028' || c = '\u2029' || c = '\u202F' || c = '\u205F' ||
  c = '\u3000' || c = '\uFEFF'

/-- JavaScript line terminators (not matched by `.` in a regex). -/
def isLineTerm (c : Char) : Bool :=
  c = '\n' || c = '\r' || c = '\u2028' || c = '\u2029'

/-- Strip leading and trailing JS whitespace from a character list. -/
def trimList (l : List Char) : List Char :=
  ((l.dropWhile isJsWs).reverse.dropWhile isJsWs).reverse

/-- JavaScript `String.prototype.trim`. -/
def jsTrim (s : String) : String := ⟨trimList s.data⟩

/-- One step of splitting a character list at newline characters. -/
def splitLinesAux (c : Char) (r : List (List Char)) : List (List Char) :=
  if c = '\n' then [] :: r
  else
    match r with
    | g :: gs => (c :: g) :: gs
    | [] => [[c]]

/-- JavaScript `text.split('\n')` (keeps empty pieces; `"" ↦ [""]`). -/
def splitLines (s : String) : List String :=
  (s.data.foldr splitLinesAux [[]]).map (fun l => (⟨l⟩ : String))

/-- ASCII decimal digit. -/
def digitCh (c : Char) : Bool := '0' ≤ c && c ≤ '9'

/-- ASCII uppercase letter. -/
def isUpperAZ (c : Char) : Bool := 'A' ≤ c && c ≤ 'Z'

/-- ASCII lowercase letter. -/
def isLowerAZ (c : Char) : Bool := 'a' ≤ c && c ≤ 'z'

/-- ASCII-only lowercasing, as JS case-insensitive regex canonicalization and
`toLowerCase` behave on the ASCII strings involved here. -/
def toLowerAZ (c : Char) : Char :=
  if isUpperAZ c then Char.ofNat (c.toNat + 32) else c

/-- ASCII-only uppercasing. -/
def toUpperAZ (c : Char) : Char :=
  if isLowerAZ c then Char.ofNat (c.toNat - 32) else c

/-- ASCII-lowercase every character of a string (JS `toLowerCase` on ASCII). -/
def lowerStr (s : String) : String := ⟨s.data.map toLowerAZ⟩

/-- Does the second list start with the first one? -/
def startsWithList [BEq α] : List α → List α → Bool
  | [], _ => true
  | _ :: _, [] => false
  | a :: as, b :: bs => a == b && startsWithList as bs

/-- Substring search on character lists (JS `String.prototype.includes`). -/
def containsSubList [BEq α] (hay needle : List α) : Bool :=
  startsWithList needle hay ||
    match hay with
    | [] => false
    | _ :: t => containsSubList t needle

/-- JS `hay.includes(needle)`. -/
def containsSub (hay needle : String) : Bool :=
  containsSubList hay.data needle.data

/- The Section Splitter (src/app/api/vision/route.ts, splitTextIntoSections).
   The six JS regex header patterns are reimplemented character-exactly;
   they are only ever applied to trimmed single lines (no `'\n'`). -/

/-- Regex `/^.*:$/`: every character before the final `:` must not be a line
terminator (JS `.`), and the line ends with a colon. -/
def pat1 (t : String) : Bool :=
  t.data.getLast? == some ':' && t.data.dropLast.all (fun c => !isLineTerm c)

/-- The character class `[A-Z\s.,;'"\-]` of the all-caps header pattern. -/
def pat2Class (c : Char) : Bool :=
  isUpperAZ c || isJsWs c || c = '.' || c = ',' || c = ';' ||
  c = '\x27' || c = '\x22' || c = '-'

/-- Regex `/^[A-Z][A-Z\s.,;'"\-]{4,99}$/` (all-caps line of 5 to 100 chars). -/
def pat2 (t : String) : Bool :=
  match t.data with
  | [] => false
  | c :: rest =>
    isUpperAZ c && rest.all pat2Class &&
      decide (4 ≤ rest.length) && decide (rest.length ≤ 99)

/-- One or more JS whitespace characters followed by a character satisfying
`p` (the `\s+X` part of the keyword patterns). -/
def wsThen (p : Char → Bool) (l : List Char) : Bool :=
  match l with
  | [] => false
  | c :: _ =>
    isJsWs c &&
      match l.dropWhile isJsWs with
      | [] => false
      | d :: _ => p d

/-- Case-insensitively strip a keyword from the front of a character list,
returning the remainder on success. -/
def stripKeywordCI : List Char → List Char → Option (List Char)
  | [], l => some l
  | _ :: _, [] => none
  | k :: ks, c :: cs =>
    if toLowerAZ c = toLowerAZ k then stripKeywordCI ks cs else none

/-- Uppercase Roman-numeral character (class `[IVXLCDM]`). -/
def romanCh (c : Char) : Bool :=
  c = 'I' || c = 'V' || c = 'X' || c = 'L' || c = 'C' || c = 'D' || c = 'M'

/-- The class `[0-9IVXLCDM]` under the `/i` flag. -/
def sectionNumCh (c : Char) : Bool := digitCh c || romanCh (toUpperAZ c)

/-- Regex `/^(Section|SECTION|Article|ARTICLE|Chapter|CHAPTER|PART|Part)\s+[0-9IVXLCDM]+/i`. -/
def pat3 (t : String) : Bool :=
  ["section", "article", "chapter", "part"].any fun kw =>
    match stripKeywordCI kw.data t.data with
    | none => false
    | some rest => wsThen sectionNumCh rest

/-- Regex `/^[0-9]+\.\s+[A-Z]/` (numbered section such as `1. Introduction`). -/
def pat4 (t : String) : Bool :=
  !(t.data.takeWhile digitCh).isEmpty &&
    match t.data.dropWhile digitCh with
    | '.' :: r2 => wsThen isUpperAZ r2
    | _ => false

/-- Regex `/^[IVXLCDM]+\.\s+[A-Z]/` (Roman-numeral section). -/
def pat5 (t : String) : Bool :=
  !(t.data.takeWhile romanCh).isEmpty &&
    match t.data.dropWhile romanCh with
    | '.' :: r2 => wsThen isUpperAZ r2
    | _ => false

/-- Regex `/^[A-Z]\.\s+[A-Z]/` (letter section such as `A. Introduction`). -/
def pat6 (t : String) : Bool :=
  match t.data with
  | c :: '.' :: r2 => isUpperAZ c && wsThen isUpperAZ r2
  | _ => false

/-- `headerPatterns.some(pattern => pattern.test(trimmedLine))`. -/
def isHeader (t : String) : Bool :=
  pat1 t || pat2 t || pat3 t || pat4 t || pat5 t || pat6 t

/-- A titled section, as produced by the splitter. -/
structure Section where
  title : String
  content : String
  deriving DecidableEq

/-- The loop state of `splitTextIntoSections`: sections pushed so far and the
current section being accumulated. -/
structure SplitState where
  sections : List Section
  curTitle : String
  curContent : String

/-- `if (currentSection.content) content += '\n'; content += line`. -/
def appendLine (content line : String) : String :=
  (if content ≠ "" then content ++ "\n" else "") ++ line

/-- Push the current section if its trimmed content is non-empty
(`if (currentSection.content.trim()) sections.push({...currentSection})`). -/
def closeSection (st : SplitState) : List Section :=
  if jsTrim st.curContent ≠ "" then
    st.sections ++ [⟨st.curTitle, st.curContent⟩]
  else st.sections

/-- `trimmedLine.endsWith(':') ? trimmedLine.slice(0, -1) : trimmedLine`. -/
def stripTrailingColon (t : String) : String :=
  if t.data.getLast? == some ':' then ⟨t.data.dropLast⟩ else t

/-- The body of the `for (const line of lines)` loop of
`splitTextIntoSections`. -/
def processLine (st : SplitState) (line : String) : SplitState :=
  let t := jsTrim line
  if t = "" then st
  else if isHeader t then
    { sections := closeSection st
      curTitle := stripTrailingColon t
      curContent := "" }
  else
    { st with curContent := appendLine st.curContent line }

/-- `splitTextIntoSections` from src/app/api/vision/route.ts. The JS body is
pure and cannot throw, so the `catch` fallback is unreachable and not
modelled. -/
def splitTextIntoSections (text : String) : List Section :=
  if text.length < 200 then [⟨"Content", text⟩]
  else
    let lines := splitLines text
    let st := lines.foldl processLine ⟨[], "Introduction", ""⟩
    let sections := closeSection st
    if sections.isEmpty then [⟨"Content", text⟩] else sections

/- Specification apparatus for the splitter: a structurally recursive
   description of the loop, and the line-level measures the documented
   properties are stated with. -/

/-- Recursive description of the splitter loop: processing the remaining
lines with current title `title` and accumulated content `acc`, these are
the sections that will eventually be pushed (the final close included). -/
def specSplit (title acc : String) : List String → List Section
  | [] => if jsTrim acc ≠ "" then [⟨title, acc⟩] else []
  | l :: ls =>
    if jsTrim l = "" then specSplit title acc ls
    else if isHeader (jsTrim l) then
      (if jsTrim acc ≠ "" then [⟨title, acc⟩] else []) ++
        specSplit (stripTrailingColon (jsTrim l)) "" ls
    else specSplit title (appendLine acc l) ls

/-- Newline-terminated concatenation of a list of strings. -/
def concatTerm : List String → String
  | [] => ""
  | x :: xs => x ++ "\n" ++ concatTerm xs

/-- Number of lines the splitter recognizes as headers. -/
def hdrCount (ls : List String) : Nat :=
  (ls.filter fun l => isHeader (jsTrim l)).length

/-- 1 when the first line is present and not a header (such content opens an
extra leading section), 0 otherwise. -/
def leadingExtra : List String → Nat
  | [] => 0
  | l :: _ => if isHeader (jsTrim l) then 0 else 1

/-- No header line is the last line or immediately followed by another
header: every header is directly followed by a non-header line. -/
def noHang : List String → Bool
  | [] => true
  | [l] => !isHeader (jsTrim l)
  | l :: l2 :: ls =>
    (!isHeader (jsTrim l) || !isHeader (jsTrim l2)) && noHang (l2 :: ls)

/-- The non-blank lines of a text (lines whose JS-trim is non-empty); blank
lines are skipped outright by the splitter loop. -/
def contentLines (text : String) : List String :=
  (splitLines text).filter fun l => !(jsTrim l == "")

/- JSON values and a character-exact model of `JSON.parse` (ECMA-404
   grammar, as accepted by JavaScript's `JSON.parse`). Numbers and the
   bodies of strings are kept as their validated source lexemes: the claims
   about this repository depend on which texts parse and on the identity of
   the parsed tree, never on numeric values or on escape decoding. -/

/-- A parsed JSON value. -/
inductive Json where
  | null : Json
  | bool (b : Bool) : Json
  | num (lexeme : String) : Json
  | str (body : String) : Json
  | arr (items : List Json) : Json
  | obj (fields : List (String × Json)) : Json

/-- The whitespace accepted by `JSON.parse` (space, tab, LF, CR). -/
def jsonWsCh (c : Char) : Bool :=
  c = ' ' || c = '\t' || c = '\n' || c = '\r'

/-- Drop leading JSON whitespace. -/
def skipJsonWs (l : List Char) : List Char := l.dropWhile jsonWsCh

/-- Hexadecimal digit. -/
def hexCh (c : Char) : Bool :=
  digitCh c || ('a' ≤ c && c ≤ 'f') || ('A' ≤ c && c ≤ 'F')

/-- Parse the body of a JSON string after the opening quote, up to and
including the closing quote; returns the (still encoded) body and the
remaining input. `fuel` bounds the recursion; `length + 1` always
suffices since every step consumes at least one character. -/
def parseStringBody : Nat → List Char → Option (List Char × List Char)
  | 0, _ => none
  | _ + 1, [] => none
  | fuel + 1, c :: cs =>
    if c = '\x22' then some ([], cs)
    else if c = '\\' then
      match cs with
      | [] => none
      | e :: cs2 =>
        if e = '\x22' || e = '\\' || e = '/' || e = 'b' || e = 'f' ||
            e = 'n' || e = 'r' || e = 't' then
          (parseStringBody fuel cs2).map fun p => (c :: e :: p.1, p.2)
        else if e = 'u' then
          match cs2 with
          | h1 :: h2 :: h3 :: h4 :: cs3 =>
            if hexCh h1 && hexCh h2 && hexCh h3 && hexCh h4 then
              (parseStringBody fuel cs3).map fun p =>
                (c :: e :: h1 :: h2 :: h3 :: h4 :: p.1, p.2)
            else none
          | _ => none
        else none
    else if c.toNat < 0x20 then none
    else (parseStringBody fuel cs).map fun p => (c :: p.1, p.2)

/-- Parse the integer part of a JSON number (`0` or a nonzero digit followed
by digits). -/
def parseIntPart : List Char → Option (List Char × List Char)
  | [] => none
  | c :: r =>
    if c = '0' then some ([c], r)
    else if digitCh c then
      some (c :: r.takeWhile digitCh, r.dropWhile digitCh)
    else none

/-- Parse the optional fraction part (`.` followed by one or more digits). -/
def parseFracPart (l : List Char) : Option (List Char × List Char) :=
  match l with
  | '.' :: r =>
    let ds := r.takeWhile digitCh
    if ds.isEmpty then none else some ('.' :: ds, r.dropWhile digitCh)
  | _ => some ([], l)

/-- Parse the optional exponent part (`e`/`E`, optional sign, digits). -/
def parseExpPart (l : List Char) : Option (List Char × List Char) :=
  match l with
  | c :: r =>
    if c = 'e' || c = 'E' then
      let sr : List Char × List Char :=
        match r with
        | s :: r2 => if s = '+' || s = '-' then ([s], r2) else ([], s :: r2)
        | [] => ([], [])
      let ds := sr.2.takeWhile digitCh
      if ds.isEmpty then none
      else some (c :: sr.1 ++ ds, sr.2.dropWhile digitCh)
    else some ([], c :: r)
  | [] => some ([], [])

/-- Parse a JSON number lexeme. -/
def parseNumberLex (l : List Char) : Option (List Char × List Char) := do
  let nr : List Char × List Char :=
    match l with
    | '-' :: r => (['-'], r)
    | _ => ([], l)
  let (ip, l2) ← parseIntPart nr.2
  let (fp, l3) ← parseFracPart l2
  let (ep, l4) ← parseExpPart l3
  pure (nr.1 ++ ip ++ fp ++ ep, l4)

mutual

/-- Parse one JSON value (leading whitespace allowed); returns the value and
the unconsumed remainder. -/
def parseValueF : Nat → List Char → Option (Json × List Char)
  | 0, _ => none
  | fuel + 1, l =>
    match skipJsonWs l with
    | [] => none
    | c :: cs =>
      if c = '\x22' then
        (parseStringBody (cs.length + 1) cs).map fun p => (.str ⟨p.1⟩, p.2)
      else if c = '\x7b' then
        (parseObjTailF fuel cs).map fun p => (.obj p.1, p.2)
      else if c = '[' then
        (parseArrTailF fuel cs).map fun p => (.arr p.1, p.2)
      else if startsWithList "true".data (c :: cs) then
        some (.bool true, (c :: cs).drop 4)
      else if startsWithList "false".data (c :: cs) then
        some (.bool false, (c :: cs).drop 5)
      else if startsWithList "null".data (c :: cs) then
        some (.null, (c :: cs).drop 4)
      else
        (parseNumberLex (c :: cs)).map fun p => (.num ⟨p.1⟩, p.2)

/-- Parse the items of an array after the opening bracket. -/
def parseArrTailF : Nat → List Char → Option (List Json × List Char)
  | 0, _ => none
  | fuel + 1, l =>
    match skipJsonWs l with
    | ']' :: r => some ([], r)
    | l2 => do
      let (v, r) ← parseValueF fuel l2
      let (vs, r2) ← parseArrRestF fuel r
      pure (v :: vs, r2)

/-- Parse `, value`* `]` after an array item. -/
def parseArrRestF : Nat → List Char → Option (List Json × List Char)
  | 0, _ => none
  | fuel + 1, l =>
    match skipJsonWs l with
    | ']' :: r => some ([], r)
    | ',' :: r => do
      let (v, r2) ← parseValueF fuel r
      let (vs, r3) ← parseArrRestF fuel r2
      pure (v :: vs, r3)
    | _ => none

/-- Parse one `"key": value` member. -/
def parseMemberF : Nat → List Char → Option ((String × Json) × List Char)
  | 0, _ => none
  | fuel + 1, l =>
    match skipJsonWs l with
    | '\x22' :: cs => do
      let (k, r) ← parseStringBody (cs.length + 1) cs
      match skipJsonWs r with
      | ':' :: r2 => do
        let (v, r3) ← parseValueF fuel r2
        pure ((⟨k⟩, v), r3)
      | _ => none
    | _ => none

/-- Parse the members of an object after the opening brace. -/
def parseObjTailF : Nat → List Char → Option (List (String × Json) × List Char)
  | 0, _ => none
  | fuel + 1, l =>
    match skipJsonWs l with
    | '\x7d' :: r => some ([], r)
    | l2 => do
      let (kv, r) ← parseMemberF fuel l2
      let (kvs, r2) ← parseObjRestF fuel r
      pure (kv :: kvs, r2)

/-- Parse `, member`* `}` after an object member. -/
def parseObjRestF : Nat → List Char → Option (List (String × Json) × List Char)
  | 0, _ => none
  | fuel + 1, l =>
    match skipJsonWs l with
    | '\x7d' :: r => some ([], r)
    | ',' :: r => do
      let (kv, r2) ← parseMemberF fuel r
      let (kvs, r3) ← parseObjRestF fuel r2
      pure (kv :: kvs, r3)
    | _ => none

end

/-- `JSON.parse`: parse a complete JSON text (trailing whitespace allowed),
`none` when the text is not syntactically valid JSON. -/
def jsonParse (s : String) : Option Json :=
  match parseValueF (s.data.length + 1) s.data with
  | some (v, r) => if skipJsonWs r = [] then some v else none
  | none => none

/- The Structured-Document Builder (convertToStructuredJSON in
   src/app/api/vision/route.ts). `new Date().toISOString()` is an ambient
   effect and becomes the explicit parameter `now`. The function's own
   `catch` is unreachable (its body is pure), so only the two live result
   shapes are modelled: the raw parsed JSON, or the built structure. -/

/-- The metadata record attached to a structured document. -/
structure DocMetadata where
  extractionMethod : String
  extractionDate : String
  contentType : String
  sectionCount : Nat
  deriving DecidableEq

/-- `{ content, metadata, sections }` as built by `convertToStructuredJSON`. -/
structure StructuredDocument where
  content : String
  metadata : DocMetadata
  sections : List Section
  deriving DecidableEq

/-- Result of the builder: the JSON value itself when the text was parsed
as JSON, the wrapped section structure otherwise. -/
inductive StructuredResult where
  | rawJson (j : Json) : StructuredResult
  | structured (doc : StructuredDocument) : StructuredResult

/-- Discriminator: did the builder return the parsed JSON value as-is? -/
def StructuredResult.isRawJson : StructuredResult → Bool
  | .rawJson _ => true
  | .structured _ => false

/-- JS `s.startsWith(c)` for a single-character prefix. -/
def startsWithCh (s : String) (c : Char) : Bool := s.data.head? == some c

/-- JS `s.endsWith(c)` for a single-character suffix. -/
def endsWithChar (s : String) (c : Char) : Bool := s.data.getLast? == some c

/-- The non-JSON path of the builder: split into sections and wrap with
metadata. -/
def buildStructured (now text : String) : StructuredDocument :=
  let sections := splitTextIntoSections text
  { content := text
    metadata :=
      { extractionMethod := "vision-api"
        extractionDate := now
        contentType := "text/plain"
        sectionCount := sections.length }
    sections := sections }

/-- `convertToStructuredJSON` from src/app/api/vision/route.ts. -/
def convertToStructuredJSON (now text : String) : StructuredResult :=
  if startsWithCh (jsTrim text) '\x7b' && endsWithChar (jsTrim text) '\x7d' then
    match jsonParse text with
    | some j => .rawJson j
    | none => .structured (buildStructured now text)
  else .structured (buildStructured now text)

/- The Chunk Producer (the chunk-building block of POST in
   src/app/api/vision/route.ts). Chunks are the `JSON.stringify` images of
   the pushed objects; the serializer below reproduces `JSON.stringify`
   (insertion-order keys, standard string escaping). -/

/-- Hexadecimal digit characters for `\u00XX` escapes. -/
def hexDigitCh (n : Nat) : Char :=
  if n < 10 then Char.ofNat ('0'.toNat + n) else Char.ofNat ('a'.toNat + n - 10)

/-- `JSON.stringify` escaping of the characters of a string body. -/
def encodeJsonStringData : List Char → List Char
  | [] => []
  | c :: cs =>
    (if c = '\x22' then ['\\', '\x22']
     else if c = '\\' then ['\\', '\\']
     else if c = '\x08' then ['\\', 'b']
     else if c = '\t' then ['\\', 't']
     else if c = '\n' then ['\\', 'n']
     else if c = '\x0c' then ['\\', 'f']
     else if c = '\r' then ['\\', 'r']
     else if c.toNat < 0x20 then
       ['\\', 'u', '0', '0', hexDigitCh (c.toNat / 16), hexDigitCh (c.toNat % 16)]
     else [c]) ++ encodeJsonStringData cs

/-- `JSON.stringify` of a string (quoted, escaped). -/
def encodeJsonString (s : String) : String :=
  ⟨'\x22' :: (encodeJsonStringData s.data ++ ['\x22'])⟩

/-- Comma-separated concatenation (array bodies in `JSON.stringify`). -/
def joinComma : List String → String
  | [] => ""
  | [x] => x
  | x :: xs => x ++ "," ++ joinComma xs

/-- `JSON.stringify(structuredData.metadata)`. -/
def stringifyMetadata (m : DocMetadata) : String :=
  "\x7b\x22extractionMethod\x22:" ++ encodeJsonString m.extractionMethod ++
  ",\x22extractionDate\x22:" ++ encodeJsonString m.extractionDate ++
  ",\x22contentType\x22:" ++ encodeJsonString m.contentType ++
  ",\x22sectionCount\x22:" ++ toString m.sectionCount ++ "\x7d"

/-- `JSON.stringify({...structuredData.metadata, sectionTitle})`. -/
def stringifySectionMeta (m : DocMetadata) (title : String) : String :=
  "\x7b\x22extractionMethod\x22:" ++ encodeJsonString m.extractionMethod ++
  ",\x22extractionDate\x22:" ++ encodeJsonString m.extractionDate ++
  ",\x22contentType\x22:" ++ encodeJsonString m.contentType ++
  ",\x22sectionCount\x22:" ++ toString m.sectionCount ++
  ",\x22sectionTitle\x22:" ++ encodeJsonString title ++ "\x7d"

/-- `JSON.stringify({title, content})` for one section. -/
def stringifySection (s : Section) : String :=
  "\x7b\x22title\x22:" ++ encodeJsonString s.title ++
  ",\x22content\x22:" ++ encodeJsonString s.content ++ "\x7d"

/-- `JSON.stringify(structuredData)`: the complete structured document. -/
def stringifyDoc (d : StructuredDocument) : String :=
  "\x7b\x22content\x22:" ++ encodeJsonString d.content ++
  ",\x22metadata\x22:" ++ stringifyMetadata d.metadata ++
  ",\x22sections\x22:[" ++ joinComma (d.sections.map stringifySection) ++
  "]\x7d"

/-- The `full_content` chunk pushed first. -/
def fullContentChunk (d : StructuredDocument) : String :=
  "\x7b\x22type\x22:\x22full_content\x22,\x22content\x22:" ++
  encodeJsonString d.content ++
  ",\x22metadata\x22:" ++ stringifyMetadata d.metadata ++ "\x7d"

/-- The per-section chunk pushed inside the `for (const section of ...)`
loop. -/
def sectionChunk (d : StructuredDocument) (s : Section) : String :=
  "\x7b\x22type\x22:\x22section\x22,\x22title\x22:" ++ encodeJsonString s.title ++
  ",\x22content\x22:" ++ encodeJsonString s.content ++
  ",\x22metadata\x22:" ++ stringifySectionMeta d.metadata s.title ++ "\x7d"

/-- The chunk-building block of POST: push the full-content chunk, push one
chunk per section in document order, push the serialized document. -/
def buildChunks (d : StructuredDocument) : List String :=
  let chunks : List String := []
  let chunks := chunks ++ [fullContentChunk d]
  let chunks := d.sections.foldl (fun acc s => acc ++ [sectionChunk d s]) chunks
  chunks ++ [stringifyDoc d]

/- The Embedding Generator (generateEmbeddings in the OpenAI helper module,
   src/unnamed/part_000). The OpenAI embeddings endpoint becomes the
   parameter `api`: applied to a batch it yields `some` of the returned
   embedding list, or `none` when the call threw. `clientOk` models whether
   `getOpenAIClient()` returned a client. -/

/-- Split a list into consecutive batches of at most 20 elements
(the `for (let i = 0; i < texts.length; i += batchSize)` loop structure). -/
def batchesOf {α : Type} (l : List α) : List (List α) :=
  if l.isEmpty then []
  else l.take 20 :: batchesOf (l.drop 20)
termination_by l.length
decreasing_by
  cases l with
  | nil => simp_all
  | cons a as => simp [List.length_drop]; omega

/-- Result of one batch: the returned embeddings on success, one `null`
(`none`) per batch element on failure. -/
def embedBatch {E : Type} (api : List String → Option (List E))
    (b : List String) : List (Option E) :=
  match api b with
  | some r => r.map some
  | none => b.map fun _ => none

/-- `generateEmbeddings`: process the texts in sequential batches of 20,
appending each batch's results. -/
def generateEmbeddings {E : Type} (clientOk : Bool)
    (api : List String → Option (List E)) (texts : List String) :
    List (Option E) :=
  if !clientOk then texts.map fun _ => none
  else (batchesOf texts).foldl (fun acc b => acc ++ embedBatch api b) []

/- The Vector Store Adapter query and its static fallback
   (queryEmbeddings / useFallbackContext in src/lib/rag/pinecone-client.ts).

   Ambient effects become parameters:
   - `hasIndex` — whether `ensureIndexExists` returned an index reference;
   - `queryResult` — the Pinecone query outcome: `none` when the call threw,
     otherwise the returned matches;
   - `embeddingStr` — the string `queryEmbedding.slice(0, 10).join(' ')`
     that the fallback inspects (JavaScript float-to-string formatting is
     not modelled; the fallback's behaviour is proved for every possible
     rendering, which subsumes the real one).

   Scores are modelled as rationals; metadata is narrowed to its `source`
   field, the only one the formatter consumes, plus the `text` field which
   is modelled directly as `text`. -/

/-- A retrieved context entry: score (absent when Pinecone returned no
score), text, and the metadata `source` field (`none` when absent). -/
structure ContextMatch where
  score : Option ℚ
  text : String
  metaSource : Option String
  deriving DecidableEq

/-- A raw Pinecone match (same observable fields). -/
structure PineMatch where
  score : Option ℚ
  text : String
  metaSource : Option String
  deriving DecidableEq

/-- One entry of the static fallback corpus. -/
structure KbEntry where
  text : String
  keywords : List String
  deriving DecidableEq

/-- The five UAE-corporate-tax fallback knowledge entries. -/
def knowledgeBase : List KbEntry :=
  [ { text := "Small Business Relief for UAE Corporate Tax: Businesses with revenue below AED 3 million qualify for small business relief, exempting them from corporate tax. This applies to both resident and non-resident businesses with UAE-sourced income. To qualify, businesses must apply annually through the Federal Tax Authority portal and maintain proper financial records. The AED 3 million threshold is calculated based on the calendar year or approved financial year revenue."
      keywords := ["small business", "relief", "3 million", "exempt", "revenue", "threshold"] }
  , { text := "UAE Corporate Tax Registration Process: Businesses must register for corporate tax through the Federal Tax Authority (FTA) portal. The registration requires a valid trade license, financial statements, and ownership details. For mainland companies, registration deadlines depend on the financial year end. Free zone companies with qualifying activities may be eligible for 0% tax rates but still need to register. After registration, businesses receive a Tax Registration Number (TRN) for filing returns and payments."
      keywords := ["registration", "register", "FTA", "portal", "trade license", "TRN"] }
  , { text := "UAE Corporate Tax Rates: The standard corporate tax rate is 9% for taxable income exceeding AED 375,000. Taxable income below AED 375,000 is subject to a 0% rate. Qualifying free zone businesses can benefit from a 0% rate on qualifying income and a 9% rate on non-qualifying income. Small businesses with revenue below AED 3 million can apply for small business relief. Large multinational enterprises may be subject to a different rate under global minimum tax rules."
      keywords := ["tax rates", "9%", "375,000", "free zone", "0%", "multinational"] }
  , { text := "UAE Corporate Tax Compliance: Businesses must file corporate tax returns within 9 months from the end of the tax period. Tax periods typically align with the financial year. Proper bookkeeping is mandatory, with records to be maintained for at least 7 years. Penalties apply for non-compliance, including late registration, filing, or payment. The Federal Tax Authority conducts audits to ensure compliance. Tax returns must be filed electronically through the FTA portal."
      keywords := ["compliance", "returns", "filing", "bookkeeping", "records", "penalties", "audits"] }
  , { text := "UAE Corporate Tax Deductions: Businesses can claim deductions for expenses wholly and exclusively incurred for business purposes. This includes employee costs, rent, utilities, and business-related travel. Interest deductions may be restricted under thin capitalization rules. Capital allowances can be claimed for depreciation of assets. Donations to approved charities are deductible. Entertainment expenses are partially deductible up to certain limits. Provisions for bad debts are deductible if specific conditions are met."
      keywords := ["deductions", "expenses", "interest", "depreciation", "donations", "entertainment", "bad debts"] } ]

/-- The topic the fallback infers from superficial numeric patterns in the
rendered embedding (`userQuery` in the source). -/
def inferTopic (embeddingStr : String) : String :=
  if containsSub embeddingStr "0.02" && containsSub embeddingStr "-0.01" then
    "small business relief"
  else if containsSub embeddingStr "0.03" && containsSub embeddingStr "-0.02" then
    "registration"
  else if containsSub embeddingStr "0.01" && containsSub embeddingStr "-0.03" then
    "tax rates"
  else "corporate tax"

/-- `knowledgeBase.filter(item => item.keywords.some(keyword =>
userQuery.toLowerCase().includes(keyword.toLowerCase())))`. -/
def matchingContexts (embeddingStr : String) : List KbEntry :=
  let userQuery := inferTopic embeddingStr
  knowledgeBase.filter fun item =>
    item.keywords.any fun kw =>
      containsSub (lowerStr userQuery) (lowerStr kw)

/-- The single general-knowledge entry returned when nothing overlaps. -/
def generalFallbackMatch : ContextMatch :=
  { score := some (75 / 100)
    text := "UAE Corporate Tax is a federal tax imposed on business profits. It was introduced in 2023 with a standard rate of 9% for taxable income above AED 375,000. Businesses with revenue below AED 3 million may qualify for small business relief. The tax applies to UAE companies, foreign entities with permanent establishments in the UAE, and individuals conducting business activities. Free zone businesses may qualify for preferential rates on qualifying income. The Federal Tax Authority (FTA) administers the tax system, requiring registration, filing annual returns, and maintaining proper financial records."
    metaSource := some "fallback-general-knowledge" }

/-- `useFallbackContext` from src/lib/rag/pinecone-client.ts. -/
def useFallbackContext (embeddingStr : String) : List ContextMatch :=
  let ms := matchingContexts embeddingStr
  if !ms.isEmpty then
    ms.map fun c =>
      { score := some (85 / 100)
        text := c.text
        metaSource := some "fallback-knowledge-base" }
  else [generalFallbackMatch]

/-- `queryEmbeddings` from src/lib/rag/pinecone-client.ts: fall back when
the index is unavailable, when the query throws, or when it returns zero
matches; otherwise map the matches through. -/
def queryEmbeddings (hasIndex : Bool) (queryResult : Option (List PineMatch))
    (embeddingStr : String) : List ContextMatch :=
  if !hasIndex then useFallbackContext embeddingStr
  else
    match queryResult with
    | none => useFallbackContext embeddingStr
    | some ms =>
      if ms.isEmpty then useFallbackContext embeddingStr
      else ms.map fun m => ⟨m.score, m.text, m.metaSource⟩

/- The Context Formatter and getRelevantContext (src/unnamed/part_000,
   OpenAI helper module). -/

/-- JS `Number.prototype.toFixed(1)` for the non-negative rationals arising
here: round half away from zero to one decimal digit. -/
def ratToFixed1 (q : ℚ) : String :=
  let t : ℚ := q * 10 + 1 / 2
  let n : Int := t.num.fdiv t.den
  let m := n.natAbs
  (if n < 0 then "-" else "") ++ toString (m / 10) ++ "." ++ toString (m % 10)

/-- The `(Relevance: XX.X%)` segment: present only when the score is present
and truthy (nonzero). -/
def renderScorePart (score : Option ℚ) : String :=
  match score with
  | some s => if s ≠ 0 then " (Relevance: " ++ ratToFixed1 (s * 100) ++ "%)" else ""
  | none => ""

/-- `context.metadata?.source || 'Document'`. -/
def renderSource (metaSource : Option String) : String :=
  match metaSource with
  | some s => if s ≠ "" then s else "Document"
  | none => "Document"

/-- One rendered block `[Context N]...:\ntext\n` (N is 1-based). -/
def renderContextBlock (n : Nat) (c : ContextMatch) : String :=
  "[Context " ++ toString n ++ "]" ++ renderScorePart c.score ++ " " ++
    renderSource c.metaSource ++ ":\n" ++ c.text ++ "\n"

/-- Newline-separated join (JS `array.join('\n')`). -/
def joinNL : List String → String
  | [] => ""
  | [x] => x
  | x :: xs => x ++ "\n" ++ joinNL xs

/-- `formatContextForPrompt` from the OpenAI helper module. -/
def formatContextForPrompt (contexts : List ContextMatch) : String :=
  if contexts.isEmpty then ""
  else joinNL (contexts.mapIdx fun i c => renderContextBlock (i + 1) c)

/-- `getRelevantContext` from the OpenAI helper module. `queryEmbedding` is
the result of `generateEmbedding(query)` (`none` = embedding generation
failed), carried as the rendered embedding string consumed by the
fallback; `hasIndex`/`queryResult` are passed through to
`queryEmbeddings`. -/
def getRelevantContext (queryEmbedding : Option String) (hasIndex : Bool)
    (queryResult : Option (List PineMatch)) : List ContextMatch :=
  match queryEmbedding with
  | none => []
  | some embeddingStr =>
    let results := queryEmbeddings hasIndex queryResult embeddingStr
    if results.isEmpty then [] else results

/- The response-shape normalizer (extractTextFromResponse and the extraction
   logic of createOpenRouterChatCompletionNonStreaming, the OpenRouter
   helper module in src/unnamed/part_000).

   The parsed provider response (`await response.json()`) is a `Json` value.
   Property access on non-objects yields `undefined` (`none`); JS `a && b`
   chains short-circuit on falsy values, which coincides with
   `none`-propagation here because every JS value on which a property access
   can succeed (object/array) is truthy, and property access on the falsy
   values that occur (`null`, `''`, `0`, `false`) yields `undefined`. -/

/-- Is a JSON number lexeme numerically zero (mantissa digits all `0`)? -/
def numLexZero (lex : String) : Bool :=
  (lex.data.takeWhile fun c => c ≠ 'e' && c ≠ 'E').all fun c =>
    !digitCh c || c = '0'

/-- JavaScript truthiness of a parsed JSON value. -/
def Json.truthy : Json → Bool
  | .null => false
  | .bool b => b
  | .num lex => !numLexZero lex
  | .str s => !(s.data.isEmpty)
  | .arr _ => true
  | .obj _ => true

/-- Property access `v[k]` (objects only; `undefined` elsewhere). -/
def Json.getField : Json → String → Option Json
  | .obj fs, k => fs.lookup k
  | _, _ => none

/-- Index access `v[i]`: array element, or the numeric string key of an
object. -/
def Json.item : Json → Nat → Option Json
  | .arr xs, i => xs[i]?
  | .obj fs, i => fs.lookup (toString i)
  | _, _ => none

/-- JS `a && a.b && ...` guard: keep the accessed value only when present
and truthy. -/
def truthyJs (o : Option Json) : Option Json :=
  match o with
  | some v => if v.truthy then some v else none
  | none => none

mutual

/-- The recursive last-resort search (`findStringProperty` in the source):
the first string-valued property longer than 10 characters, in insertion
order, descending into nested objects/arrays (`typeof === 'object'`). -/
def findStringProperty : Json → Option Json
  | .obj fs => findStringInFields fs
  | .arr xs => findStringInItems xs
  | _ => none

/-- Walk object fields in order. -/
def findStringInFields : List (String × Json) → Option Json
  | [] => none
  | (_, v) :: rest =>
    match v with
    | .str s => if 10 < s.data.length then some (.str s) else findStringInFields rest
    | .obj _ | .arr _ | .null =>
      match findStringProperty v with
      | some r => some r
      | none => findStringInFields rest
    | _ => findStringInFields rest

/-- Walk array items in order (`for...in` enumerates indices). -/
def findStringInItems : List Json → Option Json
  | [] => none
  | v :: rest =>
    match v with
    | .str s => if 10 < s.data.length then some (.str s) else findStringInItems rest
    | .obj _ | .arr _ | .null =>
      match findStringProperty v with
      | some r => some r
      | none => findStringInItems rest
    | _ => findStringInItems rest

end

/-- `extractTextFromResponse` from the OpenRouter helper module: try each
response shape in source order, returning the first truthy hit, `none`
(JS `null`) when every shape fails. -/
def extractTextFromResponse (data : Json) : Option Json :=
  match truthyJs (((data.getField "choices").bind fun c => c.item 0).bind
      fun c0 => c0.getField "text") with
  | some t => some t
  | none =>
  match truthyJs (data.getField "content") with
  | some t => some t
  | none =>
  match truthyJs (((data.getField "candidates").bind fun c => c.item 0).bind
      fun c0 => c0.getField "content") with
  | some t => some t
  | none =>
  match truthyJs (data.getField "text") with
  | some t => some t
  | none =>
  match truthyJs (data.getField "response") with
  | some t => some t
  | none =>
  match truthyJs (data.getField "output") with
  | some t => some t
  | none =>
  match truthyJs (data.getField "generated_text") with
  | some t => some t
  | none => findStringProperty data

/-- The extraction logic of `createOpenRouterChatCompletionNonStreaming`:
the OpenAI-style `choices[0].message.content` check first, then
`extractTextFromResponse`, then the distinguishable error. -/
def nonStreamingExtract (data : Json) : Except String Json :=
  match truthyJs ((((data.getField "choices").bind fun c => c.item 0).bind
      fun c0 => c0.getField "message").bind fun m => m.getField "content") with
  | some c => .ok c
  | none =>
    match extractTextFromResponse data with
    | some t => .ok t
    | none => .error "Failed to extract text from OpenRouter response"

/- The specification-side strategies of claim C9, one per sentence clause,
   to be compared with the code-side chain above. -/

/-- Spec strategy 1: OpenAI-style `choices[0].message.content`. -/
def stratOpenAI (d : Json) : Option Json :=
  truthyJs ((((d.getField "choices").bind fun c => c.item 0).bind
    fun c0 => c0.getField "message").bind fun m => m.getField "content")

/-- Spec strategy 2: OpenRouter `choices[0].text`. -/
def stratORText (d : Json) : Option Json :=
  truthyJs (((d.getField "choices").bind fun c => c.item 0).bind
    fun c0 => c0.getField "text")

/-- Spec strategy 3: Anthropic-style `content`. -/
def stratAnthropic (d : Json) : Option Json :=
  truthyJs (d.getField "content")

/-- Spec strategy 4: Gemini-style `candidates[0].content`. -/
def stratGemini (d : Json) : Option Json :=
  truthyJs (((d.getField "candidates").bind fun c => c.item 0).bind
    fun c0 => c0.getField "content")

/-- Spec strategy 5: generic `text`/`response`/`output`/`generated_text`. -/
def stratGeneric (d : Json) : Option Json :=
  truthyJs (d.getField "text") <|> truthyJs (d.getField "response") <|>
  truthyJs (d.getField "output") <|> truthyJs (d.getField "generated_text")

/-- Spec strategy 6: the recursive string-property search. -/
def stratRecursive (d : Json) : Option Json := findStringProperty d

/-- All six strategies tried in the claimed priority order. -/
def allStrats (d : Json) : Option Json :=
  stratOpenAI d <|> stratORText d <|> stratAnthropic d <|> stratGemini d <|>
  stratGeneric d <|> stratRecursive d

/- Concrete inputs used by the witnesses and counterexamples. -/

/-- The worked example of the specification (68 characters). -/
def c3Text : String :=
  "SECTION 1: Overview\nThis is the intro.\nSECTION 2: Details\nMore info."

/-- A 246-character text with two recognizable headers, one body line before
the first header, and a body line after each header. -/
def wText : String :=
  "Preamble line that is long enough to help reach the threshold easily\nSECTION 1: Alpha\nAlpha body line one with plenty of words\nAlpha body line two\nSECTION 2: Beta\nBeta body line with sufficient length to push us past two hundred characters total\n"

/-- A valid JSON object text (trimmed form starts with a brace and ends with
a brace). -/
def jsonObjText : String := "\x7b\x22a\x22: 1\x7d"

/-- Valid JSON that is an array, hence not brace-delimited. -/
def jsonArrText : String := "[1, 2]"

/-- 25 texts: 20 ordinary ones followed by 5 marked `FAIL`. -/
def texts25 : List String :=
  List.replicate 20 "ok" ++ List.replicate 5 "FAIL"

/-- A batch-embedding API that throws exactly on batches containing `FAIL`
and otherwise returns one zero vector id per input. -/
def api25 (b : List String) : Option (List Nat) :=
  if b.contains "FAIL" then none else some (b.map fun _ => 0)

/- Basic facts about JS trimming. -/

theorem trimList_eq_nil_iff (l : List Char) :
    trimList l = [] ↔ ∀ c ∈ l, isJsWs c := by
  unfold trimList
  rw [List.reverse_eq_nil_iff, List.dropWhile_eq_nil_iff]
  constructor
  · intro h c hc
    have hsplit := List.takeWhile_append_dropWhile (p := isJsWs) (l := l)
    rw [← hsplit] at hc
    rcases List.mem_append.mp hc with h1 | h2
    · exact List.mem_takeWhile_imp h1
    · exact h c (List.mem_reverse.mpr h2)
  · intro h c hc
    exact h c (List.dropWhile_subset _ (List.mem_reverse.mp hc))

theorem jsTrim_eq_empty_iff (s : String) :
    jsTrim s = "" ↔ ∀ c ∈ s.data, isJsWs c := by
  rw [← trimList_eq_nil_iff]
  constructor
  · intro h
    have h2 : (jsTrim s).data = ("" : String).data := by rw [h]
    simpa [jsTrim] using h2
  · intro h
    exact String.ext (by simpa [jsTrim] using h)

theorem jsTrim_empty : jsTrim "" = "" := rfl

/-- Appending a non-blank line keeps the accumulated content non-blank. -/
theorem jsTrim_appendLine_ne (acc l : String) (hl : jsTrim l ≠ "") :
    jsTrim (appendLine acc l) ≠ "" := by
  intro h
  apply hl
  rw [jsTrim_eq_empty_iff] at h ⊢
  intro c hc
  apply h
  unfold appendLine
  rw [String.data_append]
  exact List.mem_append.mpr (Or.inr hc)

theorem appendLine_empty (l : String) : appendLine "" l = l := by
  simp [appendLine]

/-- C1: for every input text of length strictly less than 200 characters,
the Section Splitter returns exactly one section titled `"Content"` whose
content is the full input text. -/
theorem splitTextIntoSections_short (text : String) (h : text.length < 200) :
    splitTextIntoSections text = [⟨"Content", text⟩] := by
  unfold splitTextIntoSections
  rw [if_pos h]

/-- Witness for C1 at the concrete input `"hi"`. -/
theorem splitTextIntoSections_short_witness :
    ("hi" : String).length < 200 ∧
      splitTextIntoSections "hi" = [⟨"Content", "hi"⟩] :=
  ⟨by decide, splitTextIntoSections_short "hi" (by decide)⟩

/-- C3 counterexample: on the specification's worked example (68 characters,
hence below the 200-character cutoff) the splitter does not return the two
claimed sections. -/
theorem sectionExample_cex :
    splitTextIntoSections c3Text ≠
      [⟨"SECTION 1", "This is the intro."⟩, ⟨"SECTION 2", "More info."⟩] := by
  decide

/-- C3 (amended): on the specification's worked example the splitter returns
exactly one section titled `"Content"` containing the full input text,
because the input is shorter than 200 characters. -/
theorem sectionExample_amended :
    splitTextIntoSections c3Text = [⟨"Content", c3Text⟩] := by
  decide

/- The splitter loop is described by `specSplit`. -/

theorem processLine_blank (st : SplitState) (l : String) (h : jsTrim l = "") :
    processLine st l = st := by
  simp [processLine, h]

theorem closeSection_eq (secs : List Section) (title acc : String) :
    closeSection ⟨secs, title, acc⟩ =
      secs ++ (if jsTrim acc ≠ "" then [⟨title, acc⟩] else []) := by
  unfold closeSection
  split <;> simp

theorem foldl_processLine_eq (ls : List String) :
    ∀ (secs : List Section) (title acc : String),
      closeSection (ls.foldl processLine ⟨secs, title, acc⟩) =
        secs ++ specSplit title acc ls := by
  induction ls with
  | nil =>
    intro secs title acc
    simp only [List.foldl_nil, specSplit, closeSection_eq]
  | cons l ls ih =>
    intro secs title acc
    rw [List.foldl_cons]
    by_cases h1 : jsTrim l = ""
    · rw [processLine_blank _ _ h1, ih]
      simp only [specSplit, if_pos h1]
    · by_cases h2 : isHeader (jsTrim l) = true
      · have hstep : processLine ⟨secs, title, acc⟩ l =
            ⟨closeSection ⟨secs, title, acc⟩, stripTrailingColon (jsTrim l), ""⟩ := by
          simp [processLine, h1, h2]
        rw [hstep, ih, closeSection_eq]
        simp only [specSplit, if_neg h1, if_pos h2, List.append_assoc]
      · have hstep : processLine ⟨secs, title, acc⟩ l =
            ⟨secs, title, appendLine acc l⟩ := by
          simp [processLine, h1, h2]
        rw [hstep, ih]
        simp only [specSplit, if_neg h1, if_neg h2]

theorem foldl_processLine_filter (ls : List String) :
    ∀ st, ls.foldl processLine st =
      (ls.filter fun l => !(jsTrim l == "")).foldl processLine st := by
  induction ls with
  | nil => intro st; rfl
  | cons l ls ih =>
    intro st
    by_cases h : jsTrim l = ""
    · rw [List.foldl_cons, processLine_blank st l h,
        List.filter_cons_of_neg (by simp [h])]
      exact ih st
    · rw [List.foldl_cons, List.filter_cons_of_pos (by simp [h]), List.foldl_cons]
      exact ih _

theorem contentLines_ne_blank (text : String) :
    ∀ l ∈ contentLines text, jsTrim l ≠ "" := by
  intro l hl
  have h := (List.mem_filter.mp hl).2
  simpa using h

theorem noHang_tail {l : String} {ls : List String}
    (h : noHang (l :: ls) = true) : noHang ls = true := by
  cases ls with
  | nil => rfl
  | cons l2 ls2 =>
    simp only [noHang, Bool.and_eq_true] at h
    exact h.2

theorem noHang_header {l : String} {ls : List String}
    (h : noHang (l :: ls) = true) (hh : isHeader (jsTrim l) = true) :
    ∃ l2 ls2, ls = l2 :: ls2 ∧ isHeader (jsTrim l2) = false := by
  cases ls with
  | nil => simp [noHang, hh] at h
  | cons l2 ls2 =>
    refine ⟨l2, ls2, rfl, ?_⟩
    simp only [noHang, Bool.and_eq_true] at h
    have h1 := h.1
    simp [hh] at h1
    simpa using h1

theorem specSplit_content (ls : List String) :
    ∀ title acc s, s ∈ specSplit title acc ls → jsTrim s.content ≠ "" := by
  induction ls with
  | nil =>
    intro title acc s hs
    simp only [specSplit] at hs
    split at hs
    · next hcond =>
      rw [List.mem_singleton] at hs
      subst hs
      exact hcond
    · simp at hs
  | cons l ls ih =>
    intro title acc s hs
    simp only [specSplit] at hs
    split at hs
    · exact ih _ _ _ hs
    · split at hs
      · rcases List.mem_append.mp hs with h1 | h2
        · split at h1
          · next hcond =>
            rw [List.mem_singleton] at h1
            subst h1
            exact hcond
          · simp at h1
        · exact ih _ _ _ h2
      · exact ih _ _ _ hs

theorem specSplit_length (ls : List String) :
    ∀ title acc, (∀ l ∈ ls, jsTrim l ≠ "") → noHang ls = true →
      (acc = "" ∨ jsTrim acc ≠ "") →
      (specSplit title acc ls).length =
        hdrCount ls + (if jsTrim acc ≠ "" then 1 else leadingExtra ls) := by
  induction ls with
  | nil =>
    intro title acc _ _ _
    simp only [specSplit, hdrCount, List.filter_nil, List.length_nil, leadingExtra]
    split <;> simp
  | cons l ls ih =>
    intro title acc hblank hwf hacc
    have hl : jsTrim l ≠ "" := hblank l (List.mem_cons_self l ls)
    have hblank2 : ∀ x ∈ ls, jsTrim x ≠ "" := fun x hx =>
      hblank x (List.mem_cons_of_mem _ hx)
    simp only [specSplit, if_neg hl]
    by_cases hh : isHeader (jsTrim l) = true
    · rw [if_pos hh]
      obtain ⟨l2, ls2, rfl, hl2⟩ := noHang_header hwf hh
      rw [List.length_append,
        ih _ "" hblank2 (noHang_tail hwf) (Or.inl rfl),
        if_neg (by simp [jsTrim_empty] : ¬jsTrim "" ≠ "")]
      have hcount : hdrCount (l :: l2 :: ls2) = hdrCount (l2 :: ls2) + 1 := by
        simp [hdrCount, List.filter_cons, hh]
      rw [hcount]
      by_cases hac : jsTrim acc ≠ ""
      · rw [if_pos hac, if_pos hac]
        simp [leadingExtra, hl2]
        omega
      · rw [if_neg hac, if_neg hac]
        simp [leadingExtra, hl2, hh]
    · rw [if_neg hh]
      have hkeep : jsTrim (appendLine acc l) ≠ "" := jsTrim_appendLine_ne acc l hl
      rw [ih _ _ hblank2 (noHang_tail hwf) (Or.inr hkeep), if_pos hkeep]
      have hcount : hdrCount (l :: ls) = hdrCount ls := by
        simp [hdrCount, List.filter_cons, hh]
      rw [hcount]
      by_cases hac : jsTrim acc ≠ ""
      · rw [if_pos hac]
      · rw [if_neg hac]
        simp [leadingExtra, hh]

theorem concatTerm_append (xs ys : List String) :
    concatTerm (xs ++ ys) = concatTerm xs ++ concatTerm ys := by
  induction xs with
  | nil => simp [concatTerm]
  | cons x xs ih => simp [concatTerm, ih, String.append_assoc]

theorem specSplit_concat (ls : List String) :
    ∀ title acc, (∀ l ∈ ls, jsTrim l ≠ "") → (acc = "" ∨ jsTrim acc ≠ "") →
      concatTerm ((specSplit title acc ls).map Section.content) =
        (if jsTrim acc ≠ "" then acc ++ "\n" else "") ++
          concatTerm (ls.filter fun l => !isHeader (jsTrim l)) := by
  induction ls with
  | nil =>
    intro title acc _ _
    simp only [specSplit, List.filter_nil]
    split
    · next h => simp [concatTerm, h]
    · next h => simp [concatTerm, h]
  | cons l ls ih =>
    intro title acc hblank hacc
    have hl : jsTrim l ≠ "" := hblank l (List.mem_cons_self l ls)
    have hblank2 : ∀ x ∈ ls, jsTrim x ≠ "" := fun x hx =>
      hblank x (List.mem_cons_of_mem _ hx)
    simp only [specSplit, if_neg hl]
    by_cases hh : isHeader (jsTrim l) = true
    · have hfilt : (l :: ls).filter (fun x => !isHeader (jsTrim x)) =
          ls.filter (fun x => !isHeader (jsTrim x)) := by
        simp [List.filter_cons, hh]
      rw [if_pos hh, List.map_append, concatTerm_append,
        ih _ "" hblank2 (Or.inl rfl),
        if_neg (by simp [jsTrim_empty] : ¬jsTrim "" ≠ ""), hfilt]
      by_cases hac : jsTrim acc ≠ ""
      · rw [if_pos hac, if_pos hac]
        simp [concatTerm, String.append_assoc]
      · rw [if_neg hac, if_neg hac]
        simp [concatTerm]
    · rw [if_neg hh]
      have hkeep : jsTrim (appendLine acc l) ≠ "" := jsTrim_appendLine_ne acc l hl
      have hfilt : (l :: ls).filter (fun x => !isHeader (jsTrim x)) =
          l :: ls.filter (fun x => !isHeader (jsTrim x)) := by
        simp [List.filter_cons, hh]
      rw [ih _ _ hblank2 (Or.inr hkeep), if_pos hkeep, hfilt]
      by_cases hac : jsTrim acc ≠ ""
      · rw [if_pos hac]
        have hne : acc ≠ "" := fun h => hac (by rw [h]; exact jsTrim_empty)
        simp [appendLine, hne, concatTerm, String.append_assoc]
      · rw [if_neg hac]
        have hae : acc = "" := by
          rcases hacc with h | h
          · exact h
          · exact absurd h hac
        subst hae
        simp [appendLine, concatTerm]

/-- C2 (amended): for a text of at least 200 characters whose non-blank
lines contain `N ≥ 1` header lines, each directly followed by a non-header
non-blank line, the splitter returns `N` sections — `N + 1` when the first
non-blank line is not a header (`leadingExtra`) — each with non-empty
content, and the newline-terminated concatenation of the section contents
equals the newline-terminated concatenation of the non-header non-blank
lines of the input (the original text modulo the removed header lines and
the dropped blank lines). -/
theorem splitTextIntoSections_headers (text : String)
    (hlen : 200 ≤ text.length)
    (hwf : noHang (contentLines text) = true)
    (hN : 1 ≤ hdrCount (contentLines text)) :
    (splitTextIntoSections text).length =
        hdrCount (contentLines text) + leadingExtra (contentLines text) ∧
      (∀ s ∈ splitTextIntoSections text, s.content ≠ "") ∧
      concatTerm ((splitTextIntoSections text).map Section.content) =
        concatTerm ((contentLines text).filter fun l => !isHeader (jsTrim l)) := by
  have hns : ¬text.length < 200 := by omega
  have hblank : ∀ l ∈ contentLines text, jsTrim l ≠ "" :=
    contentLines_ne_blank text
  have e1 : (splitLines text).foldl processLine ⟨[], "Introduction", ""⟩ =
      (contentLines text).foldl processLine ⟨[], "Introduction", ""⟩ :=
    foldl_processLine_filter (splitLines text) _
  have e2 : closeSection
      ((contentLines text).foldl processLine ⟨[], "Introduction", ""⟩) =
      specSplit "Introduction" "" (contentLines text) := by
    rw [foldl_processLine_eq (contentLines text) [] "Introduction" ""]
    rfl
  have hlength := specSplit_length (contentLines text) "Introduction" ""
    hblank hwf (Or.inl rfl)
  rw [if_neg (by simp [jsTrim_empty] : ¬jsTrim "" ≠ "")] at hlength
  have hSne : specSplit "Introduction" "" (contentLines text) ≠ [] := by
    intro h
    rw [h] at hlength
    simp at hlength
    omega
  have hempty : (specSplit "Introduction" "" (contentLines text)).isEmpty = false := by
    cases hS : specSplit "Introduction" "" (contentLines text) with
    | nil => exact absurd hS hSne
    | cons a as => rfl
  have hsplit : splitTextIntoSections text =
      specSplit "Introduction" "" (contentLines text) := by
    unfold splitTextIntoSections
    rw [if_neg hns]
    show (if (closeSection ((splitLines text).foldl processLine
        ⟨[], "Introduction", ""⟩)).isEmpty = true then [⟨"Content", text⟩]
      else closeSection ((splitLines text).foldl processLine
        ⟨[], "Introduction", ""⟩)) = _
    rw [e1, e2, hempty]
    simp
  refine ⟨?_, ?_, ?_⟩
  · rw [hsplit]
    exact hlength
  · intro s hs
    rw [hsplit] at hs
    have h := specSplit_content (contentLines text) _ _ _ hs
    intro hc
    rw [hc] at h
    exact h jsTrim_empty
  · rw [hsplit, specSplit_concat (contentLines text) "Introduction" ""
      hblank (Or.inl rfl),
      if_neg (by simp [jsTrim_empty] : ¬jsTrim "" ≠ "")]
    exact String.empty_append _

/-- C2 counterexample: `"1. Hello"` is a single recognized header line, yet
(being shorter than 200 characters) the splitter returns one section whose
content is the whole text, header line included — so the section contents
do not reproduce the text modulo removed header lines. -/
theorem splitTextIntoSections_headers_cex :
    isHeader (jsTrim "1. Hello") = true ∧
      hdrCount (contentLines "1. Hello") = 1 ∧
      splitTextIntoSections "1. Hello" = [⟨"Content", "1. Hello"⟩] ∧
      concatTerm ((splitTextIntoSections "1. Hello").map Section.content) ≠
        concatTerm ((contentLines "1. Hello").filter fun l =>
          !isHeader (jsTrim l)) := by
  decide

/-- Witness for C2 (amended) at a concrete 246-character text with two
headers and a leading body line: 3 sections, all non-empty, covering the
non-header lines. -/
theorem splitTextIntoSections_headers_witness :
    200 ≤ wText.length ∧ noHang (contentLines wText) = true ∧
      1 ≤ hdrCount (contentLines wText) ∧
      ((splitTextIntoSections wText).length =
          hdrCount (contentLines wText) + leadingExtra (contentLines wText) ∧
        (∀ s ∈ splitTextIntoSections wText, s.content ≠ "") ∧
        concatTerm ((splitTextIntoSections wText).map Section.content) =
          concatTerm ((contentLines wText).filter fun l =>
            !isHeader (jsTrim l))) :=
  ⟨by decide, by decide, by decide,
    splitTextIntoSections_headers wText (by decide) (by decide) (by decide)⟩

/-- C4 counterexample: `"[1, 2]"` is syntactically valid JSON, yet the
Structured-Document Builder does not return the parsed value — the
brace-delimited guard fails and the text is section-split instead. -/
theorem convertToStructuredJSON_cex :
    (jsonParse jsonArrText).isSome = true ∧
      (convertToStructuredJSON "" jsonArrText).isRawJson = false := by
  constructor
  · rfl
  · rfl

/-- C4 (amended): for every input text whose trimmed form starts with `{`
and ends with `}` and which parses as valid JSON, the builder returns the
parsed JSON value itself, without invoking the Section Splitter; valid JSON
of any other shape goes through the splitter instead. -/
theorem convertToStructuredJSON_objectJson (now text : String) (j : Json)
    (h1 : startsWithCh (jsTrim text) '\x7b' = true)
    (h2 : endsWithChar (jsTrim text) '\x7d' = true)
    (h3 : jsonParse text = some j) :
    convertToStructuredJSON now text = .rawJson j := by
  simp [convertToStructuredJSON, h1, h2, h3]

/-- Witness for C4 (amended) at the concrete object text. -/
theorem convertToStructuredJSON_objectJson_witness :
    convertToStructuredJSON "" jsonObjText =
      StructuredResult.rawJson (Json.obj [("a", Json.num "1")]) :=
  convertToStructuredJSON_objectJson "" jsonObjText
    (Json.obj [("a", Json.num "1")]) (by rfl) (by rfl) (by rfl)

/- The Chunk Producer. -/

theorem foldl_push_eq_map {α β : Type} (f : α → β) (l : List α) :
    ∀ init : List β,
      l.foldl (fun acc x => acc ++ [f x]) init = init ++ l.map f := by
  induction l with
  | nil => intro init; simp
  | cons x xs ih =>
    intro init
    rw [List.foldl_cons, ih]
    simp

/-- C5: for every StructuredDocument the Chunk Producer emits exactly
`sections.length + 2` chunks, in the fixed order full-content chunk first,
one section chunk per section in document order, and the serialized
complete structure last. -/
theorem buildChunks_spec (d : StructuredDocument) :
    buildChunks d =
        fullContentChunk d ::
          (d.sections.map (sectionChunk d) ++ [stringifyDoc d]) ∧
      (buildChunks d).length = d.sections.length + 2 := by
  have h : buildChunks d =
      fullContentChunk d ::
        (d.sections.map (sectionChunk d) ++ [stringifyDoc d]) := by
    show d.sections.foldl (fun acc s => acc ++ [sectionChunk d s])
        ([] ++ [fullContentChunk d]) ++ [stringifyDoc d] = _
    rw [foldl_push_eq_map]
    simp
  exact ⟨h, by rw [h]; simp⟩

/- The Embedding Generator. -/

theorem batchesOf_nil {α : Type} : batchesOf ([] : List α) = [] := by
  rw [batchesOf]
  rfl

theorem batchesOf_cons {α : Type} (l : List α) (h : l ≠ []) :
    batchesOf l = l.take 20 :: batchesOf (l.drop 20) := by
  rw [batchesOf]
  rw [if_neg (by simp [h])]

theorem embedBatch_length {E : Type} (api : List String → Option (List E))
    (hapi : ∀ b r, api b = some r → r.length = b.length) (b : List String) :
    (embedBatch api b).length = b.length := by
  unfold embedBatch
  cases h : api b with
  | some r => simp [hapi b r h]
  | none => simp

theorem foldl_append_flatten {α β : Type} (f : α → List β) (bs : List α) :
    ∀ init : List β,
      bs.foldl (fun acc b => acc ++ f b) init = init ++ (bs.map f).flatten := by
  induction bs with
  | nil => intro init; simp
  | cons b bs ih =>
    intro init
    rw [List.foldl_cons, ih]
    simp

theorem generateEmbeddings_eq_flatten {E : Type}
    (api : List String → Option (List E)) (texts : List String) :
    generateEmbeddings true api texts =
      ((batchesOf texts).map (embedBatch api)).flatten := by
  unfold generateEmbeddings
  rw [foldl_append_flatten]
  simp

theorem flatten_batches_length {E : Type} (api : List String → Option (List E))
    (hapi : ∀ b r, api b = some r → r.length = b.length) :
    ∀ (n : Nat) (texts : List String), texts.length ≤ n →
      (((batchesOf texts).map (embedBatch api)).flatten).length =
        texts.length := by
  intro n
  induction n with
  | zero =>
    intro texts h
    have he : texts = [] := List.eq_nil_of_length_eq_zero (by omega)
    subst he
    simp [batchesOf_nil]
  | succ n ih =>
    intro texts h
    by_cases he : texts = []
    · subst he
      simp [batchesOf_nil]
    · rw [batchesOf_cons _ he]
      have hne : 1 ≤ texts.length := by
        cases texts with
        | nil => exact absurd rfl he
        | cons a as => simp
      simp only [List.map_cons, List.flatten_cons, List.length_append]
      rw [embedBatch_length api hapi,
        ih (texts.drop 20) (by simp [List.length_drop]; omega)]
      simp [List.length_take, List.length_drop]
      omega

theorem flatten_batches_getElem {E : Type} (api : List String → Option (List E))
    (hapi : ∀ b r, api b = some r → r.length = b.length) :
    ∀ (n : Nat) (texts : List String), texts.length ≤ n →
      ∀ i, i < texts.length →
        (api ((texts.drop (20 * (i / 20))).take 20) = none →
          (((batchesOf texts).map (embedBatch api)).flatten)[i]? = some none) ∧
        (∀ r, api ((texts.drop (20 * (i / 20))).take 20) = some r →
          (((batchesOf texts).map (embedBatch api)).flatten)[i]? =
            (r[i % 20]?).map some) := by
  intro n
  induction n with
  | zero =>
    intro texts h i hi
    omega
  | succ n ih =>
    intro texts h i hi
    have he : texts ≠ [] := by
      intro hx
      subst hx
      simp at hi
    rw [batchesOf_cons _ he]
    simp only [List.map_cons, List.flatten_cons]
    have hb : (embedBatch api (texts.take 20)).length = (texts.take 20).length :=
      embedBatch_length api hapi _
    by_cases h20 : i < 20
    · have hilt : i < (embedBatch api (texts.take 20)).length := by
        rw [hb]
        simp [List.length_take]
        omega
      rw [List.getElem?_append_left hilt]
      have hdiv : 20 * (i / 20) = 0 := by omega
      rw [hdiv, List.drop_zero]
      have hmod : i % 20 = i := by omega
      rw [hmod]
      constructor
      · intro hnone
        unfold embedBatch
        rw [hnone]
        have hiv : i < (texts.take 20).length := by rw [← hb]; exact hilt
        rw [List.getElem?_map, List.getElem?_eq_getElem hiv]
        rfl
      · intro r hsome
        unfold embedBatch
        rw [hsome]
        exact List.getElem?_map _ _ _
    · have hlen20 : (texts.take 20).length = 20 := by
        simp [List.length_take]
        omega
      rw [List.getElem?_append_right (by rw [hb, hlen20]; omega)]
      rw [hb, hlen20]
      have hrec := ih (texts.drop 20) (by simp [List.length_drop]; omega)
        (i - 20) (by simp [List.length_drop]; omega)
      have hbatch : ((texts.drop 20).drop (20 * ((i - 20) / 20))).take 20 =
          (texts.drop (20 * (i / 20))).take 20 := by
        rw [List.drop_drop]
        congr 2
        omega
      have hmod : (i - 20) % 20 = i % 20 := by omega
      rw [hbatch, hmod] at hrec
      exact hrec

/-- C6: for every input sequence of texts and every batch API returning one
embedding per input, the Embedding Generator returns a sequence of the same
length, processed in sequential batches of at most 20, where a failed batch
contributes `null` exactly at its positions and every other position `i`
carries the API's embedding for the text at position `i` (entry `i % 20` of
its batch's response); in particular 25 inputs whose second batch fails
yield the 20 real vectors followed by 5 `null`s. The length is preserved
even when the client is uninitialized. -/
theorem generateEmbeddings_spec {E : Type} (api : List String → Option (List E))
    (texts : List String)
    (hapi : ∀ b r, api b = some r → r.length = b.length) :
    (generateEmbeddings true api texts).length = texts.length ∧
      (∀ i, i < texts.length →
        (api ((texts.drop (20 * (i / 20))).take 20) = none →
          (generateEmbeddings true api texts)[i]? = some none) ∧
        (∀ r, api ((texts.drop (20 * (i / 20))).take 20) = some r →
          (generateEmbeddings true api texts)[i]? = (r[i % 20]?).map some)) ∧
      (texts.length = 25 →
        ∀ r, api (texts.take 20) = some r → api (texts.drop 20) = none →
          generateEmbeddings true api texts =
            r.map some ++ (texts.drop 20).map fun _ => none) ∧
      (generateEmbeddings false api texts).length = texts.length := by
  rw [generateEmbeddings_eq_flatten]
  refine ⟨?_, ?_, ?_, ?_⟩
  · exact flatten_batches_length api hapi texts.length texts (Nat.le_refl _)
  · exact flatten_batches_getElem api hapi texts.length texts (Nat.le_refl _)
  · intro h25 r hr hn
    have h1 : texts ≠ [] := by
      intro hx
      rw [hx] at h25
      simp at h25
    rw [batchesOf_cons _ h1]
    have hd : texts.drop 20 ≠ [] := by
      intro hx
      have := congrArg List.length hx
      simp [List.length_drop] at this
      omega
    rw [batchesOf_cons _ hd]
    have hdd : (texts.drop 20).drop 20 = [] :=
      List.drop_eq_nil_of_le (by simp [List.length_drop]; omega)
    rw [hdd, batchesOf_nil]
    have ht : (texts.drop 20).take 20 = texts.drop 20 :=
      List.take_of_length_le (by simp [List.length_drop]; omega)
    rw [ht]
    simp only [List.map_cons, List.map_nil, List.flatten_cons, List.flatten_nil,
      List.append_nil]
    unfold embedBatch
    rw [hr, hn]
  · simp [generateEmbeddings]

/-- Witness for C6 at 25 concrete texts whose second batch fails: the output
is 20 real entries followed by 5 `null`s, and the length is 25. -/
theorem generateEmbeddings_spec_witness :
    generateEmbeddings true api25 texts25 =
        List.replicate 20 (some 0) ++ List.replicate 5 none ∧
      (generateEmbeddings true api25 texts25).length = texts25.length := by
  have hapi : ∀ b r, api25 b = some r → r.length = b.length := by
    intro b r h
    unfold api25 at h
    by_cases hc : b.contains "FAIL" = true
    · rw [if_pos hc] at h
      exact absurd h (by simp)
    · rw [if_neg hc] at h
      have : b.map (fun _ => (0 : Nat)) = r := by
        injection h
      rw [← this]
      simp
  have h := generateEmbeddings_spec api25 texts25 hapi
  refine ⟨?_, h.1⟩
  have h3 := h.2.2.1 (by decide) (List.replicate 20 0) (by decide) (by decide)
  rw [h3]
  decide

/- The Vector Store Adapter fallback. -/

/-- C7: whenever the query takes the fallback path (no index reference, a
thrown query, or zero matches), the result is the fallback context, which
always holds at least one match; every keyword-overlap match carries the
fixed score 0.85, and when no knowledge-base entry overlaps the inferred
topic the result is exactly the one general-knowledge entry scored 0.75. -/
theorem queryEmbeddings_fallback_spec (hasIndex : Bool)
    (queryResult : Option (List PineMatch)) (embeddingStr : String)
    (h : hasIndex = false ∨ queryResult = none ∨ queryResult = some []) :
    queryEmbeddings hasIndex queryResult embeddingStr =
        useFallbackContext embeddingStr ∧
      1 ≤ (useFallbackContext embeddingStr).length ∧
      (matchingContexts embeddingStr ≠ [] →
        ∀ m ∈ useFallbackContext embeddingStr, m.score = some (85 / 100)) ∧
      (matchingContexts embeddingStr = [] →
        useFallbackContext embeddingStr = [generalFallbackMatch] ∧
          generalFallbackMatch.score = some (75 / 100)) := by
  refine ⟨?_, ?_, ?_, ?_⟩
  · rcases h with h | h | h
    · subst h
      rfl
    · subst h
      cases hasIndex <;> rfl
    · subst h
      cases hasIndex <;> rfl
  · by_cases hm : matchingContexts embeddingStr = []
    · simp [useFallbackContext, hm]
    · have hne : (matchingContexts embeddingStr).isEmpty = false := by
        simp [hm]
      simp only [useFallbackContext, hne, Bool.not_false, if_pos]
      rw [List.length_map]
      have := List.length_pos.mpr hm
      omega
  · intro hne m hm
    have hempty : (matchingContexts embeddingStr).isEmpty = false := by
      simp [hne]
    simp only [useFallbackContext, hempty, Bool.not_false, if_pos] at hm
    obtain ⟨c, _, hc⟩ := List.mem_map.mp hm
    rw [← hc]
  · intro he
    have hempty : (matchingContexts embeddingStr).isEmpty = true := by
      simp [he]
    refine ⟨?_, rfl⟩
    simp [useFallbackContext, hempty]

/-- Witness for C7 with the fallback exercised by a thrown query on an
unreachable index (empty result case included separately). -/
theorem queryEmbeddings_fallback_spec_witness :
    queryEmbeddings false (some []) "sample query embedding" =
        useFallbackContext "sample query embedding" ∧
      1 ≤ (useFallbackContext "sample query embedding").length :=
  ⟨(queryEmbeddings_fallback_spec false (some []) "sample query embedding"
      (Or.inl rfl)).1,
    (queryEmbeddings_fallback_spec false (some []) "sample query embedding"
      (Or.inl rfl)).2.1⟩

/- The Context Formatter. -/

theorem startsWithList_append {α : Type} [BEq α] [LawfulBEq α]
    (p l : List α) : startsWithList p (p ++ l) = true := by
  induction p with
  | nil => rfl
  | cons a as ih => simp [startsWithList, ih]

theorem containsSub_prefix (a b : String) : containsSub (a ++ b) a = true := by
  unfold containsSub
  rw [String.data_append, containsSubList.eq_def]
  rw [startsWithList_append]
  exact Bool.true_or _

/-- C8 counterexample: a match whose score is present but zero is rendered
without the `(Relevance: XX.X%)` segment (and a missing metadata source
falls back to `Document`), so the claimed uniform block format fails. -/
theorem formatContextForPrompt_cex :
    formatContextForPrompt [⟨some 0, "hello", none⟩] =
        "[Context 1] Document:\nhello\n" ∧
      containsSub (formatContextForPrompt [⟨some 0, "hello", none⟩])
        "(Relevance" = false := by
  constructor
  · rfl
  · rfl

/-- C8 (amended): the Context Formatter returns the empty string on empty
input; otherwise it renders the matches in input order as blocks
`[Context N] (Relevance: XX.X%) <source>:\n<text>\n` joined by a newline
(each block being newline-terminated, consecutive blocks are separated by a
blank line), where the relevance segment appears exactly for matches with a
present nonzero score and the source falls back to `Document`; on a single
match the output contains the literal text `[Context 1]`. -/
theorem formatContextForPrompt_spec :
    formatContextForPrompt [] = "" ∧
      (∀ ctxs : List ContextMatch,
        formatContextForPrompt ctxs =
          joinNL (ctxs.enum.map fun p => renderContextBlock (p.1 + 1) p.2)) ∧
      (∀ c : ContextMatch,
        containsSub (formatContextForPrompt [c]) "[Context 1]" = true) := by
  refine ⟨rfl, ?_, ?_⟩
  · intro ctxs
    by_cases h : ctxs = []
    · subst h
      rfl
    · have hne : ctxs.isEmpty = false := by simp [h]
      simp only [formatContextForPrompt, hne, Bool.false_eq_true, if_false]
      rw [List.mapIdx_eq_enum_map]
      rfl
  · intro c
    have h1 : formatContextForPrompt [c] = renderContextBlock 1 c := by
      simp [formatContextForPrompt, joinNL]
    have h2 : renderContextBlock 1 c =
        "[Context 1]" ++ (renderScorePart c.score ++ " " ++
          renderSource c.metaSource ++ ":\n" ++ c.text ++ "\n") := by
      apply String.ext
      simp only [renderContextBlock, String.data_append, List.append_assoc]
      rfl
    rw [h1, h2]
    exact containsSub_prefix _ _

/-- C10: when embedding generation for the query fails, getRelevantContext
returns the empty list regardless of the state of the vector store or the
fallback corpus — the caller receives zero context entries on this path. -/
theorem getRelevantContext_embeddingFailure (hasIndex : Bool)
    (queryResult : Option (List PineMatch)) :
    getRelevantContext none hasIndex queryResult = [] := rfl

/- The response-shape normalizer. -/

theorem extract_eq_strats (d : Json) :
    extractTextFromResponse d =
      (stratORText d <|> (stratAnthropic d <|> (stratGemini d <|>
        (stratGeneric d <|> stratRecursive d)))) := by
  unfold extractTextFromResponse stratORText stratAnthropic stratGemini
    stratGeneric stratRecursive
  cases truthyJs (((d.getField "choices").bind fun c => c.item 0).bind
    fun c0 => c0.getField "text") <;>
  cases truthyJs (d.getField "content") <;>
  cases truthyJs (((d.getField "candidates").bind fun c => c.item 0).bind
    fun c0 => c0.getField "content") <;>
  cases truthyJs (d.getField "text") <;>
  cases truthyJs (d.getField "response") <;>
  cases truthyJs (d.getField "output") <;>
  cases truthyJs (d.getField "generated_text") <;>
  rfl

/-- C9: the non-streaming normalizer checks the strategies exactly in the
claimed priority order — OpenAI-style `choices[0].message.content`,
OpenRouter `choices[0].text`, Anthropic-style `content`, Gemini-style
`candidates[0].content`, the generic `text`/`response`/`output`/
`generated_text` fields, then the recursive search for a string-valued
property longer than 10 characters — and produces the distinguishable
error exactly when no strategy extracts text. -/
theorem nonStreamingExtract_priority (d : Json) :
    nonStreamingExtract d =
      match allStrats d with
      | some t => Except.ok t
      | none => Except.error "Failed to extract text from OpenRouter response" := by
  unfold nonStreamingExtract allStrats
  rw [extract_eq_strats d]
  unfold stratOpenAI
  cases truthyJs ((((d.getField "choices").bind fun c => c.item 0).bind
    fun c0 => c0.getField "message").bind fun m => m.getField "content") <;>
  rfl

end MusTax
